import Mathlib

/-!
Verification development for the capital-gains tax calculator
(src/capital_gains_tax_calculator/tax_calculator_simulator.py).

The simulator is embedded shallowly: a pandas DataFrame row of the balance
becomes a `Lot`, a transaction row becomes a `Tx`, the run-scoped globals
(METHOD, CURRENCY) become a `Config` value, and the numeric columns (Python
floats) are modelled in exact arithmetic over the rationals.  Every definition
follows the corresponding Python function or event-loop branch line by line.
-/

namespace CapGains

/-- A row of the balance DataFrame: one open acquisition lot
(columns Asset, Units, Unit Price, Currency, Date).  The Date column is a
timestamp; its only role in the simulator is ordering and (in)equality
comparisons, so it is modelled as an integer. -/
structure Lot where
  asset : String
  units : ℚ
  unitPrice : ℚ
  currency : String
  date : ℤ
  deriving DecidableEq, Repr

/-- A row of the transactions DataFrame (columns Date, Type, Asset, Units,
Unit Price, Currency). -/
structure Tx where
  date : ℤ
  txType : String
  asset : String
  units : ℚ
  unitPrice : ℚ
  currency : String
  deriving DecidableEq, Repr

/-- The run-scoped module globals METHOD and CURRENCY of the simulator
(TAX_RATE is kept as a constant below, exactly as in the source). -/
structure Config where
  METHOD : String
  CURRENCY : String
  deriving DecidableEq, Repr

/-- TAX_RATE = 0.275 from the parameters cell. -/
def TAX_RATE : ℚ := 275 / 1000

/-- Sum of the Units column of a balance slice
(pandas `df["Units"].sum()`). -/
def sumUnits (lots : List Lot) : ℚ := (lots.map fun l => l.units).sum

/-- Sum of Units * Unit Price over a balance slice
(pandas `(df["Units"] * df["Unit Price"]).sum()`). -/
def weightedValue (lots : List Lot) : ℚ := (lots.map fun l => l.units * l.unitPrice).sum

/-- Python `round(x, 2)`: rounding to two decimal places.  Python rounds
half-to-even on binary floats; no statement in this development depends on the
behaviour at exact two-decimal ties, so the standard `round` on ℚ is used. -/
def round2 (q : ℚ) : ℚ := ((round (100 * q) : ℤ) : ℚ) / 100

/-- The record appended to `sales_taxes` (and `mining_taxes`): columns
Capital Gain, Taxes, Net Profit, Average Unit Price. -/
structure SalesRecord where
  capitalGain : ℚ
  taxes : ℚ
  netProfit : ℚ
  averageUnitPrice : ℚ
  deriving DecidableEq, Repr

/-- The two fatal `raise Exception(...)` sites of the event loop. -/
inductive SimError where
  | insufficientBalance
  | unsupportedMethod
  deriving DecidableEq, Repr

/-- Function `tax_calculator_ACB(selling_units, selling_price,
average_purchase_price)`: returns `(capital_gain, taxes)`. -/
def tax_calculator_ACB (selling_units selling_price average_purchase_price : ℚ) : ℚ × ℚ :=
  let average_purchase_value := selling_units * average_purchase_price
  let sold_value := selling_units * selling_price
  let capital_gain := sold_value - average_purchase_value
  let taxes := if capital_gain > 0 then capital_gain * TAX_RATE else 0
  (capital_gain, taxes)

/-- Function `calculate_units_to_remove_from_purchase_order`.  Returns
`(units_to_sell, units_to_sell_avg)`.  When `counter_order` equals
`number_of_purchase_orders` and the first branch is taken, Python divides by
zero on a numpy float (yielding inf with a warning) whereas ℚ yields 0; that
adjusted average is produced on the last processed order only and is never
read again, so the difference is unobservable in the returned units. -/
def calculate_units_to_remove_from_purchase_order
    (purchase_order_units units_to_sell_avg : ℚ)
    (number_of_purchase_orders counter_order : ℕ) : ℚ × ℚ :=
  let units_diff := purchase_order_units - units_to_sell_avg
  if units_diff < 0 then
    let n : ℕ := number_of_purchase_orders - counter_order
    (purchase_order_units, units_to_sell_avg + |units_diff| / (n : ℚ))
  else
    (units_to_sell_avg, units_to_sell_avg)

/-- The `for j, row_b in df_balance_asset[...].iterrows()` loop of
`update_balance`: rows whose Asset matches are processed in order (threading
the running average, the 1-based counter and the sold total); other rows pass
through untouched, exactly as the label-based `df_balance.loc[j]` writes leave
them.  Returns the updated rows and `tot_units_sold`. -/
def update_balance_loop (asset_to_sell : String) (number_of_purchase_orders : ℕ) :
    List Lot → ℚ → ℕ → ℚ → List Lot × ℚ
  | [], _, _, tot_units_sold => ([], tot_units_sold)
  | row_b :: rest, units_to_sell_avg, counter_order, tot_units_sold =>
    if row_b.asset = asset_to_sell then
      let p := calculate_units_to_remove_from_purchase_order row_b.units units_to_sell_avg
        number_of_purchase_orders counter_order
      let r := update_balance_loop asset_to_sell number_of_purchase_orders rest p.2
        (counter_order + 1) (tot_units_sold + p.1)
      ({ row_b with units := row_b.units - p.1 } :: r.1, r.2)
    else
      let r := update_balance_loop asset_to_sell number_of_purchase_orders rest
        units_to_sell_avg counter_order tot_units_sold
      (row_b :: r.1, r.2)

/-- Function `update_balance(df_balance, df_balance_asset, total_units_to_sell,
asset_to_sell)`.  At both call sites of the simulator the first two arguments
are the same frame, so the model takes a single list.  Returns the updated
balance (rows with Units <= 0 dropped, line 157) and `tot_units_sold`. -/
def update_balance (df_balance : List Lot) (total_units_to_sell : ℚ)
    (asset_to_sell : String) : List Lot × ℚ :=
  let number_of_purchase_orders := (df_balance.filter fun l => l.asset = asset_to_sell).length
  let units_to_sell_avg := total_units_to_sell / (number_of_purchase_orders : ℚ)
  let r := update_balance_loop asset_to_sell number_of_purchase_orders df_balance
    units_to_sell_avg 1 0
  (r.1.filter fun l => 0 < l.units, r.2)

/-- Return value of `tax_calculator_XYFO`:
`(capital_gain, taxes, df_balance, tot_units_sold)`. -/
structure XYFOResult where
  capital_gain : ℚ
  taxes : ℚ
  balance : List Lot
  tot_units_sold : ℚ
  deriving DecidableEq, Repr

/-- The `for j, row_b in df_balance_temp.iterrows()` loop of
`tax_calculator_XYFO` (lines 192-220): fully consumed orders are set to 0
units, a partially consumed order ends the loop (the `flag` break), and the
per-lot gain `units_sold * (selling_price - row_b["Unit Price"])` accumulates.
Arguments after the list: units_to_sell, capital_gain, tot_units_sold.
Returns (updated rows, capital_gain, tot_units_sold). -/
def tax_calculator_XYFO_loop (selling_price : ℚ) :
    List Lot → ℚ → ℚ → ℚ → List Lot × ℚ × ℚ
  | [], _, capital_gain, tot_units_sold => ([], capital_gain, tot_units_sold)
  | row_b :: rest, units_to_sell, capital_gain, tot_units_sold =>
    if row_b.units ≤ units_to_sell then
      let units_sold := row_b.units
      let cg := units_sold * (selling_price - row_b.unitPrice)
      let r := tax_calculator_XYFO_loop selling_price rest (units_to_sell - units_sold)
        (capital_gain + cg) (tot_units_sold + units_sold)
      ({ row_b with units := 0 } :: r.1, r.2)
    else
      let units_sold := units_to_sell
      let cg := units_sold * (selling_price - row_b.unitPrice)
      ({ row_b with units := row_b.units - units_to_sell } :: rest,
        capital_gain + cg, tot_units_sold + units_sold)

/-- Function `tax_calculator_XYFO(selling_units, selling_price, df_balance,
df_balance_temp)`; at its call site both frames are the (sorted) eligible
slice, so the model takes one list. -/
def tax_calculator_XYFO (selling_units selling_price : ℚ)
    (df_balance : List Lot) : XYFOResult :=
  let r := tax_calculator_XYFO_loop selling_price df_balance selling_units 0 0
  let capital_gain := r.2.1
  let taxes := if capital_gain > 0 then capital_gain * TAX_RATE else 0
  { capital_gain := capital_gain, taxes := taxes, balance := r.1, tot_units_sold := r.2.2 }

/-- Comparison used by `sort_values("Units")` (ascending). -/
def lotUnitsLE (a b : Lot) : Prop := a.units ≤ b.units

instance : DecidableRel lotUnitsLE := fun a b => inferInstanceAs (Decidable (a.units ≤ b.units))

instance : IsTotal Lot lotUnitsLE := ⟨fun a b => le_total a.units b.units⟩

instance : IsTrans Lot lotUnitsLE := ⟨fun _ _ _ hab hbc => le_trans hab hbc⟩

/-- Comparison used by `sort_values("Date")` (ascending). -/
def lotDateLE (a b : Lot) : Prop := a.date ≤ b.date

instance : DecidableRel lotDateLE := fun a b => inferInstanceAs (Decidable (a.date ≤ b.date))

instance : IsTotal Lot lotDateLE := ⟨fun a b => le_total a.date b.date⟩

instance : IsTrans Lot lotDateLE := ⟨fun _ _ _ hab hbc => le_trans hab hbc⟩

/-- Comparison used by `sort_values("Date", ascending=False)`. -/
def lotDateGE (a b : Lot) : Prop := b.date ≤ a.date

instance : DecidableRel lotDateGE := fun a b => inferInstanceAs (Decidable (b.date ≤ a.date))

/-- Comparison used by `sort_values("Unit Price", ascending=False)`. -/
def lotPriceGE (a b : Lot) : Prop := b.unitPrice ≤ a.unitPrice

instance : DecidableRel lotPriceGE := fun a b => inferInstanceAs (Decidable (b.unitPrice ≤ a.unitPrice))

/-- `df.sort_values("Units")`.  pandas' default quicksort is unstable, so the
order of tied rows is unspecified; no statement in this development depends on
tie order, and a stable insertion sort realises one admissible outcome. -/
def sortUnitsAsc (lots : List Lot) : List Lot := List.insertionSort lotUnitsLE lots

/-- `df.sort_values("Date")`. -/
def sortDateAsc (lots : List Lot) : List Lot := List.insertionSort lotDateLE lots

/-- `df.sort_values("Date", ascending=False)`. -/
def sortDateDesc (lots : List Lot) : List Lot := List.insertionSort lotDateGE lots

/-- `df.sort_values("Unit Price", ascending=False)`. -/
def sortPriceDesc (lots : List Lot) : List Lot := List.insertionSort lotPriceGE lots

/-- The eligible-lot selection of both disposal branches (lines 369-373 and
434-438): open lots of the asset with Date strictly before the event Date. -/
def eligibleLots (df_balance : List Lot) (asset : String) (date_cutoff : ℤ) : List Lot :=
  df_balance.filter fun l => l.asset = asset ∧ l.date < date_cutoff

/-- The balance re-assembly shared verbatim by the Swap branch (lines 401-416)
and the Sell branch (lines 533-548): concatenate the updated slice of the
disposed asset, other assets' rows with Date strictly before the event, and
all rows with Date strictly after the event, then `sort_values(by="Date")`.
Rows dated exactly at the event and not in the updated slice are dropped. -/
def rebalance (df_balance : List Lot) (asset : String) (date : ℤ)
    (df_balance_asset_updated : List Lot) : List Lot :=
  let df_balance_other_previous_assets :=
    df_balance.filter fun l => l.asset ≠ asset ∧ l.date < date
  let df_balance_later := df_balance.filter fun l => date < l.date
  sortDateAsc (df_balance_asset_updated ++ df_balance_other_previous_assets ++ df_balance_later)

/-- The depletion pass of the Sell branch in isolation (lines 443-510 minus
record keeping): sort the eligible lots as the configured method prescribes,
run the method's depletion, and drop exhausted rows.  Returns the surviving
rows of the asset slice and `tot_units_sold`.  Methods other than the four
supported ones never reach this code (the sufficiency check precedes the
`raise` for an unknown method); for such strings this definition follows the
final `sort_values("Unit Price", ascending=False)` branch vacuously. -/
def sellDepletion (method : String) (eligible : List Lot)
    (selling_units selling_price : ℚ) (asset : String) : List Lot × ℚ :=
  if method = "ACB" then
    update_balance (sortUnitsAsc eligible) selling_units asset
  else
    let sorted := if method = "FIFO" then sortDateAsc eligible
      else if method = "LIFO" then sortDateDesc eligible
      else sortPriceDesc eligible
    let r := tax_calculator_XYFO selling_units selling_price sorted
    (r.balance.filter fun l => 0 < l.units, r.tot_units_sold)

/-- The Sell branch of the event loop (lines 426-553).  Inputs: the current
balance, the sell transaction, and the current value of the module-level
variable `average_purchase_price` (the FIFO/LIFO/HIFO branch reads it without
assigning it, so it holds whatever the last ACB/Swap event stored).  Returns
the new balance together with the appended `sales_taxes` record, or the fatal
error the branch raises. -/
def processSell (cfg : Config) (df_balance : List Lot) (sell : Tx)
    (average_purchase_price0 : ℚ) : Except SimError (List Lot × SalesRecord) :=
  let df_balance_asset := eligibleLots df_balance sell.asset sell.date
  if sell.units ≤ sumUnits df_balance_asset then
    if cfg.METHOD = "ACB" then
      let sorted := sortUnitsAsc df_balance_asset
      let average_purchase_price := weightedValue sorted / sumUnits sorted
      let ct := tax_calculator_ACB sell.units sell.unitPrice average_purchase_price
      let ub := update_balance sorted sell.units sell.asset
      let record : SalesRecord :=
        { capitalGain := ct.1, taxes := ct.2, netProfit := ct.1 - ct.2,
          averageUnitPrice := round2 average_purchase_price }
      .ok (rebalance df_balance sell.asset sell.date ub.1, record)
    else if cfg.METHOD ∈ (["FIFO", "LIFO", "HIFO"] : List String) then
      let sorted := if cfg.METHOD = "FIFO" then sortDateAsc df_balance_asset
        else if cfg.METHOD = "LIFO" then sortDateDesc df_balance_asset
        else sortPriceDesc df_balance_asset
      let r := tax_calculator_XYFO sell.units sell.unitPrice sorted
      let df_balance_asset_updated := r.balance.filter fun l => 0 < l.units
      let record : SalesRecord :=
        { capitalGain := r.capital_gain, taxes := r.taxes,
          netProfit := r.capital_gain - r.taxes,
          averageUnitPrice := round2 average_purchase_price0 }
      .ok (rebalance df_balance sell.asset sell.date df_balance_asset_updated, record)
    else
      .error .unsupportedMethod
  else
    .error .insufficientBalance

/-- The new row the Swap branch inserts for `asset_in` (lines 392-399): the
swapped-in units at the derived price
(pooled average of the eligible out-lots, scaled by units_out / units_in),
with the Currency column overwritten by the literal string "EUR" and the
transaction's own Date (the swap date). -/
def swap_new_lot (df_balance : List Lot) (asset_out asset_in : Tx) : Lot :=
  let df_balance_asset := eligibleLots df_balance asset_out.asset asset_out.date
  let average_purchase_price :=
    weightedValue df_balance_asset / sumUnits df_balance_asset
      * asset_out.units / asset_in.units
  { asset := asset_in.asset, units := asset_in.units,
    unitPrice := average_purchase_price, currency := "EUR", date := asset_in.date }

/-- The Swap branch of the event loop (lines 357-416): deplete the eligible
out-lots with `update_balance` (the method globals are in scope but never
consulted, and no sufficiency check is performed), append the swapped-in row,
and re-assemble the balance.  The branch produces no tax record and cannot
fail. -/
def processSwap (cfg : Config) (df_balance : List Lot) (asset_out asset_in : Tx) : List Lot :=
  let df_balance_asset := eligibleLots df_balance asset_out.asset asset_out.date
  let ub := update_balance df_balance_asset asset_out.units asset_out.asset
  let df_balance_asset_updated := ub.1 ++ [swap_new_lot df_balance asset_out asset_in]
  rebalance df_balance asset_out.asset asset_out.date df_balance_asset_updated

/-- The transaction-normalisation cell (lines 274-287): Airdrop and Staking
rows become Purchases at unit price 0 in the configured CURRENCY; Mining rows
become Purchases in the configured CURRENCY at their recorded price. -/
def normalizeTx (cfg : Config) (t : Tx) : Tx :=
  if t.txType = "Airdrop" then
    { t with unitPrice := 0, currency := cfg.CURRENCY, txType := "Purchase" }
  else if t.txType = "Staking" then
    { t with unitPrice := 0, currency := cfg.CURRENCY, txType := "Purchase" }
  else if t.txType = "Mining" then
    { t with currency := cfg.CURRENCY, txType := "Purchase" }
  else t

/-- One iteration of the `mining_taxes` loop (lines 572-587): the record
appended for a mining transaction.  The balance is not touched by this loop
(the normalised Purchase already created the lot). -/
def mining_tax_record (mine : Tx) : SalesRecord :=
  let capita_gain := mine.unitPrice
  let tax := capita_gain * TAX_RATE
  let net_profit := capita_gain - tax
  let average_unit_price := mine.unitPrice
  { capitalGain := capita_gain, taxes := tax, netProfit := net_profit,
    averageUnitPrice := average_unit_price }

/-! ## Basic lemmas about balance sums -/

lemma sumUnits_nil : sumUnits [] = 0 := rfl

lemma sumUnits_cons (l : Lot) (ls : List Lot) :
    sumUnits (l :: ls) = l.units + sumUnits ls := by
  simp [sumUnits]

lemma sumUnits_append (L₁ L₂ : List Lot) :
    sumUnits (L₁ ++ L₂) = sumUnits L₁ + sumUnits L₂ := by
  simp [sumUnits]

lemma sumUnits_perm {L₁ L₂ : List Lot} (h : L₁.Perm L₂) : sumUnits L₁ = sumUnits L₂ := by
  unfold sumUnits
  exact (h.map fun l => l.units).sum_eq

lemma weightedValue_perm {L₁ L₂ : List Lot} (h : L₁.Perm L₂) :
    weightedValue L₁ = weightedValue L₂ := by
  unfold weightedValue
  exact (h.map fun l => l.units * l.unitPrice).sum_eq

lemma card_mul_le_sumUnits (c : ℚ) :
    ∀ L : List Lot, (∀ l ∈ L, c ≤ l.units) → (L.length : ℚ) * c ≤ sumUnits L := by
  intro L
  induction L with
  | nil => intro _; simp [sumUnits]
  | cons l ls ih =>
    intro h
    have h1 := h l (List.mem_cons_self l ls)
    have h2 := ih fun x hx => h x (List.mem_cons_of_mem l hx)
    have hcast : ((l :: ls).length : ℚ) * c = (ls.length : ℚ) * c + c := by
      push_cast [List.length_cons]; ring
    rw [hcast, sumUnits_cons]
    linarith

lemma sumUnits_filter_pos :
    ∀ L : List Lot, (∀ l ∈ L, 0 ≤ l.units) →
      sumUnits (L.filter fun l => 0 < l.units) = sumUnits L := by
  intro L
  induction L with
  | nil => intro _; rfl
  | cons l ls ih =>
    intro h
    have hls := ih fun x hx => h x (List.mem_cons_of_mem l hx)
    rw [List.filter_cons]
    by_cases hl : 0 < l.units
    · simp [hl, sumUnits_cons, hls]
    · have hz : l.units = 0 := le_antisymm (not_lt.mp hl) (h l (List.mem_cons_self l ls))
      simp [hl, sumUnits_cons, hz, hls]

/-! ## Lemmas about the ACB cascading depletion -/

/-- Conservation of the cascade loop: as long as the remaining slots can still
absorb the remaining target (which sorting the lots ascending by units
guarantees), the loop removes exactly `remaining slots * running average`
units.  `N` is the total order count and `k` the 1-based counter, related by
`N + 1 = lots.length + k`. -/
lemma update_balance_loop_total (a : String) (N : ℕ) (lots : List Lot) :
    ∀ (avg : ℚ) (k : ℕ) (tot : ℚ),
      (∀ l ∈ lots, l.asset = a) →
      lots.Pairwise lotUnitsLE →
      N + 1 = lots.length + k →
      (lots.length : ℚ) * avg ≤ sumUnits lots →
      (update_balance_loop a N lots avg k tot).2 = tot + (lots.length : ℚ) * avg := by
  induction lots with
  | nil => intro avg k tot _ _ _ _; simp [update_balance_loop]
  | cons l rest ih =>
    intro avg k tot hall hpair hN hle
    have hasset : l.asset = a := hall l (List.mem_cons_self _ _)
    have hall' : ∀ x ∈ rest, x.asset = a := fun x hx => hall x (List.mem_cons_of_mem l hx)
    have hpair' : rest.Pairwise lotUnitsLE := hpair.of_cons
    have hhead : ∀ x ∈ rest, l.units ≤ x.units := fun x hx => (List.pairwise_cons.mp hpair).1 x hx
    have hnk : N - k = rest.length := by
      simp only [List.length_cons] at hN; omega
    have hN' : N + 1 = rest.length + (k + 1) := by
      simp only [List.length_cons] at hN; omega
    rw [sumUnits_cons, List.length_cons] at hle
    push_cast at hle
    rw [update_balance_loop, if_pos hasset]
    simp only [calculate_units_to_remove_from_purchase_order, hnk]
    by_cases hd : l.units - avg < 0
    · rw [if_pos hd]
      cases rest with
      | nil =>
        exfalso
        simp only [List.length_nil, Nat.cast_zero, zero_add, one_mul, sumUnits_nil,
          add_zero] at hle
        linarith
      | cons r rs =>
        have hm : ((r :: rs).length : ℚ) ≠ 0 := by
          simp only [List.length_cons]
          push_cast
          positivity
        have habs : |l.units - avg| = avg - l.units := by
          rw [abs_of_neg hd]; ring
        rw [habs]
        have hmul : ((r :: rs).length : ℚ) * (avg + (avg - l.units) / ((r :: rs).length : ℚ))
            = ((r :: rs).length : ℚ) * avg + (avg - l.units) := by
          rw [mul_add, mul_div_cancel₀ _ hm]
        have hle' : ((r :: rs).length : ℚ) * (avg + (avg - l.units) / ((r :: rs).length : ℚ))
            ≤ sumUnits (r :: rs) := by
          rw [hmul]
          linarith [hle]
        have hrec := ih (avg + (avg - l.units) / ((r :: rs).length : ℚ)) (k + 1)
          (tot + l.units) hall' hpair' hN' hle'
        simp only [hrec]
        simp only [List.length_cons] at hmul ⊢
        push_cast at hmul ⊢
        linarith
    · rw [if_neg hd]
      have havgle : avg ≤ l.units := by
        have := not_lt.mp hd
        linarith
      have hle' : (rest.length : ℚ) * avg ≤ sumUnits rest :=
        card_mul_le_sumUnits avg rest fun x hx => le_trans havgle (hhead x hx)
      have hrec := ih avg (k + 1) (tot + avg) hall' hpair' hN' hle'
      simp only [hrec, List.length_cons]
      push_cast
      ring

/-- The cascade loop shrinks the balance's unit total by exactly the total it
reports as sold. -/
lemma update_balance_loop_sum (a : String) (N : ℕ) (lots : List Lot) :
    ∀ (avg : ℚ) (k : ℕ) (tot : ℚ),
      sumUnits (update_balance_loop a N lots avg k tot).1
        = sumUnits lots + tot - (update_balance_loop a N lots avg k tot).2 := by
  induction lots with
  | nil => intro avg k tot; simp [update_balance_loop]
  | cons l rest ih =>
    intro avg k tot
    rw [update_balance_loop]
    by_cases hasset : l.asset = a
    · rw [if_pos hasset]
      have := ih (calculate_units_to_remove_from_purchase_order l.units avg N k).2 (k + 1)
        (tot + (calculate_units_to_remove_from_purchase_order l.units avg N k).1)
      simp only [sumUnits_cons, this]
      ring
    · rw [if_neg hasset]
      have := ih avg k tot
      simp only [sumUnits_cons, this]
      ring

/-- Rows leaving the cascade loop never carry negative units (a fully depleted
row is set exactly to zero, a partially depleted one keeps the excess). -/
lemma update_balance_loop_nonneg (a : String) (N : ℕ) (lots : List Lot) :
    ∀ (avg : ℚ) (k : ℕ) (tot : ℚ),
      (∀ l ∈ lots, l.asset = a) →
      ∀ l' ∈ (update_balance_loop a N lots avg k tot).1, 0 ≤ l'.units := by
  induction lots with
  | nil => intro avg k tot _ l' h; simp [update_balance_loop] at h
  | cons l rest ih =>
    intro avg k tot hall l' hl'
    have hasset : l.asset = a := hall l (List.mem_cons_self _ _)
    have hall' : ∀ x ∈ rest, x.asset = a := fun x hx => hall x (List.mem_cons_of_mem l hx)
    rw [update_balance_loop, if_pos hasset] at hl'
    rcases List.mem_cons.mp hl' with h | h
    · subst h
      simp only [calculate_units_to_remove_from_purchase_order]
      by_cases hd : l.units - avg < 0
      · rw [if_pos hd]; simp
      · rw [if_neg hd]; simpa using not_lt.mp hd
    · exact ih _ (k + 1) _ hall' l' h

/-- The cascade loop only rewrites the Units column: every output row keeps
the Asset and Date (and Unit Price and Currency) of an input row. -/
lemma update_balance_loop_shape (a : String) (N : ℕ) (lots : List Lot) :
    ∀ (avg : ℚ) (k : ℕ) (tot : ℚ),
      ∀ l' ∈ (update_balance_loop a N lots avg k tot).1,
        ∃ l ∈ lots, l'.asset = l.asset ∧ l'.date = l.date ∧
          l'.unitPrice = l.unitPrice ∧ l'.currency = l.currency := by
  induction lots with
  | nil => intro avg k tot l' h; simp [update_balance_loop] at h
  | cons l rest ih =>
    intro avg k tot l' hl'
    rw [update_balance_loop] at hl'
    by_cases hasset : l.asset = a
    · rw [if_pos hasset] at hl'
      rcases List.mem_cons.mp hl' with h | h
      · exact ⟨l, List.mem_cons_self _ _, by rw [h], by rw [h], by rw [h], by rw [h]⟩
      · obtain ⟨x, hx, hfact⟩ := ih _ (k + 1) _ l' h
        exact ⟨x, List.mem_cons_of_mem l hx, hfact⟩
    · rw [if_neg hasset] at hl'
      rcases List.mem_cons.mp hl' with h | h
      · exact ⟨l, List.mem_cons_self _ _, by rw [h], by rw [h], by rw [h], by rw [h]⟩
      · obtain ⟨x, hx, hfact⟩ := ih avg k tot l' h
        exact ⟨x, List.mem_cons_of_mem l hx, hfact⟩

/-- On a slice whose rows all carry the sold asset (as at both call sites),
`update_balance` filters nothing away up front and its order count is the
slice length. -/
lemma update_balance_filter_eq (lots : List Lot) (a : String)
    (hall : ∀ l ∈ lots, l.asset = a) :
    lots.filter (fun l => l.asset = a) = lots := by
  apply List.filter_eq_self.mpr
  intro l hl
  simp [hall l hl]

/-- Conservation for `update_balance` on an ascending-by-units slice: the
reported `tot_units_sold` is exactly the requested total. -/
lemma update_balance_total (lots : List Lot) (req : ℚ) (a : String)
    (hall : ∀ l ∈ lots, l.asset = a) (hpair : lots.Pairwise lotUnitsLE)
    (h0 : 0 ≤ req) (hle : req ≤ sumUnits lots) :
    (update_balance lots req a).2 = req := by
  unfold update_balance
  rw [update_balance_filter_eq lots a hall]
  cases lots with
  | nil =>
    have : req = 0 := le_antisymm (by simpa [sumUnits] using hle) h0
    simp [update_balance_loop, this]
  | cons l ls =>
    have hlen : ((l :: ls).length : ℚ) ≠ 0 := by
      simp only [List.length_cons]
      push_cast
      positivity
    have := update_balance_loop_total a (l :: ls).length (l :: ls)
      (req / ((l :: ls).length : ℚ)) 1 0 hall hpair (by omega)
      (by rw [mul_div_cancel₀ _ hlen]; exact hle)
    simp only [this, mul_div_cancel₀ _ hlen, zero_add]

/-- The balance returned by `update_balance` on an ascending-by-units slice
has lost exactly the requested units. -/
lemma update_balance_sum (lots : List Lot) (req : ℚ) (a : String)
    (hall : ∀ l ∈ lots, l.asset = a) (hpair : lots.Pairwise lotUnitsLE)
    (h0 : 0 ≤ req) (hle : req ≤ sumUnits lots) :
    sumUnits (update_balance lots req a).1 = sumUnits lots - req := by
  have htot := update_balance_total lots req a hall hpair h0 hle
  unfold update_balance at htot ⊢
  rw [update_balance_filter_eq lots a hall] at htot ⊢
  rw [sumUnits_filter_pos _ (update_balance_loop_nonneg a _ lots _ 1 0 hall)]
  rw [update_balance_loop_sum]
  rw [htot]
  ring

/-! ## Lemmas about the FIFO/LIFO/HIFO depletion loop -/

/-- Conservation for the XYFO loop: whenever the (nonnegative) remaining
target fits in the slice, the loop sells exactly the target, in whatever
order the rows arrive. -/
lemma tax_calculator_XYFO_loop_total (p : ℚ) (lots : List Lot) :
    ∀ (rem cg tot : ℚ), 0 ≤ rem → rem ≤ sumUnits lots →
      (tax_calculator_XYFO_loop p lots rem cg tot).2.2 = tot + rem := by
  induction lots with
  | nil =>
    intro rem cg tot h0 hle
    have : rem = 0 := le_antisymm (by simpa [sumUnits] using hle) h0
    simp [tax_calculator_XYFO_loop, this]
  | cons l rest ih =>
    intro rem cg tot h0 hle
    rw [sumUnits_cons] at hle
    rw [tax_calculator_XYFO_loop]
    by_cases hc : l.units ≤ rem
    · rw [if_pos hc]
      have := ih (rem - l.units) (cg + l.units * (p - l.unitPrice)) (tot + l.units)
        (by linarith) (by linarith)
      simp only [this]
      ring
    · rw [if_neg hc]

/-- The XYFO loop shrinks the balance's unit total by exactly the total it
reports as sold. -/
lemma tax_calculator_XYFO_loop_sum (p : ℚ) (lots : List Lot) :
    ∀ (rem cg tot : ℚ),
      sumUnits (tax_calculator_XYFO_loop p lots rem cg tot).1
        = sumUnits lots + tot - (tax_calculator_XYFO_loop p lots rem cg tot).2.2 := by
  induction lots with
  | nil => intro rem cg tot; simp [tax_calculator_XYFO_loop]
  | cons l rest ih =>
    intro rem cg tot
    rw [tax_calculator_XYFO_loop]
    by_cases hc : l.units ≤ rem
    · rw [if_pos hc]
      have := ih (rem - l.units) (cg + l.units * (p - l.unitPrice)) (tot + l.units)
      simp only [sumUnits_cons, this]
      ring
    · rw [if_neg hc]
      simp only [sumUnits_cons]
      ring

/-- Rows leaving the XYFO loop never carry negative units. -/
lemma tax_calculator_XYFO_loop_nonneg (p : ℚ) (lots : List Lot) :
    ∀ (rem cg tot : ℚ), 0 ≤ rem → (∀ l ∈ lots, 0 ≤ l.units) →
      ∀ l' ∈ (tax_calculator_XYFO_loop p lots rem cg tot).1, 0 ≤ l'.units := by
  induction lots with
  | nil => intro rem cg tot _ _ l' h; simp [tax_calculator_XYFO_loop] at h
  | cons l rest ih =>
    intro rem cg tot h0 hall l' hl'
    rw [tax_calculator_XYFO_loop] at hl'
    by_cases hc : l.units ≤ rem
    · rw [if_pos hc] at hl'
      rcases List.mem_cons.mp hl' with h | h
      · rw [h]
      · exact ih (rem - l.units) _ _ (by linarith)
          (fun x hx => hall x (List.mem_cons_of_mem l hx)) l' h
    · rw [if_neg hc] at hl'
      rcases List.mem_cons.mp hl' with h | h
      · rw [h]
        simp only []
        have := not_le.mp hc
        linarith
      · exact hall l' (List.mem_cons_of_mem l h)

/-- The XYFO loop only rewrites the Units column. -/
lemma tax_calculator_XYFO_loop_shape (p : ℚ) (lots : List Lot) :
    ∀ (rem cg tot : ℚ),
      ∀ l' ∈ (tax_calculator_XYFO_loop p lots rem cg tot).1,
        ∃ l ∈ lots, l'.asset = l.asset ∧ l'.date = l.date ∧
          l'.unitPrice = l.unitPrice ∧ l'.currency = l.currency := by
  induction lots with
  | nil => intro rem cg tot l' h; simp [tax_calculator_XYFO_loop] at h
  | cons l rest ih =>
    intro rem cg tot l' hl'
    rw [tax_calculator_XYFO_loop] at hl'
    by_cases hc : l.units ≤ rem
    · rw [if_pos hc] at hl'
      rcases List.mem_cons.mp hl' with h | h
      · exact ⟨l, List.mem_cons_self _ _, by rw [h], by rw [h], by rw [h], by rw [h]⟩
      · obtain ⟨x, hx, hfact⟩ := ih (rem - l.units) _ _ l' h
        exact ⟨x, List.mem_cons_of_mem l hx, hfact⟩
    · rw [if_neg hc] at hl'
      rcases List.mem_cons.mp hl' with h | h
      · exact ⟨l, List.mem_cons_self _ _, by rw [h], by rw [h], by rw [h], by rw [h]⟩
      · exact ⟨l', List.mem_cons_of_mem l h, rfl, rfl, rfl, rfl⟩

/-- Conservation of the XYFO pipeline (loop + zero-row removal) for any
working order of the eligible slice. -/
lemma tax_calculator_XYFO_conserves (u p : ℚ) (eligible sorted : List Lot)
    (hperm : sorted.Perm eligible)
    (hpos : ∀ l ∈ eligible, 0 < l.units) (h0 : 0 ≤ u) (hle : u ≤ sumUnits eligible) :
    (tax_calculator_XYFO u p sorted).tot_units_sold = u ∧
    sumUnits ((tax_calculator_XYFO u p sorted).balance.filter fun l => 0 < l.units)
      = sumUnits eligible - u := by
  have hsum : sumUnits sorted = sumUnits eligible := sumUnits_perm hperm
  have hpos' : ∀ l ∈ sorted, 0 ≤ l.units :=
    fun l hl => le_of_lt (hpos l (hperm.mem_iff.mp hl))
  have htot := tax_calculator_XYFO_loop_total p sorted u 0 0 h0 (hsum ▸ hle)
  have hloopsum := tax_calculator_XYFO_loop_sum p sorted u 0 0
  have hnn := tax_calculator_XYFO_loop_nonneg p sorted u 0 0 h0 hpos'
  constructor
  · simp only [tax_calculator_XYFO, htot, zero_add]
  · simp only [tax_calculator_XYFO]
    rw [sumUnits_filter_pos _ hnn, hloopsum, htot, hsum]
    ring

/-- Sortedness of the ascending-by-units sort, as a pairwise statement. -/
lemma sortUnitsAsc_pairwise (lots : List Lot) :
    (sortUnitsAsc lots).Pairwise lotUnitsLE :=
  List.sorted_insertionSort lotUnitsLE lots

lemma sortUnitsAsc_perm (lots : List Lot) : (sortUnitsAsc lots).Perm lots :=
  List.perm_insertionSort lotUnitsLE lots

lemma sortDateAsc_perm (lots : List Lot) : (sortDateAsc lots).Perm lots :=
  List.perm_insertionSort lotDateLE lots

lemma sortDateDesc_perm (lots : List Lot) : (sortDateDesc lots).Perm lots :=
  List.perm_insertionSort lotDateGE lots

lemma sortPriceDesc_perm (lots : List Lot) : (sortPriceDesc lots).Perm lots :=
  List.perm_insertionSort lotPriceGE lots

/-! ## Claim C1 -/

/-- C1, corrected.  The claim holds for every Sell disposal, where the
eligible lots are first sorted as the method prescribes (ascending by units
for ACB): whenever the requested (nonnegative) units do not exceed the sum of
units over the eligible lots, the depletion pass of the Sell branch removes
exactly the requested units — its reported `tot_units_sold` equals the
request, and the surviving slice's unit total has dropped by exactly the
request — for each of the four methods, in exact arithmetic.  (As stated the
claim is false: a Swap disposal feeds the ACB cascade the unsorted slice, and
the cascade then under-sells; see the counterexample.) -/
theorem claim_C1_sell_depletion_conservation (method : String)
    (hmethod : method ∈ (["ACB", "FIFO", "LIFO", "HIFO"] : List String))
    (eligible : List Lot) (selling_units selling_price : ℚ) (a : String)
    (hasset : ∀ l ∈ eligible, l.asset = a)
    (hpos : ∀ l ∈ eligible, 0 < l.units)
    (h0 : 0 ≤ selling_units)
    (hle : selling_units ≤ sumUnits eligible) :
    (sellDepletion method eligible selling_units selling_price a).2 = selling_units ∧
    sumUnits (sellDepletion method eligible selling_units selling_price a).1
      = sumUnits eligible - selling_units := by
  have hsortedsum : sumUnits (sortUnitsAsc eligible) = sumUnits eligible :=
    sumUnits_perm (sortUnitsAsc_perm eligible)
  have hACB : (update_balance (sortUnitsAsc eligible) selling_units a).2 = selling_units ∧
      sumUnits (update_balance (sortUnitsAsc eligible) selling_units a).1
        = sumUnits eligible - selling_units := by
    have hall' : ∀ l ∈ sortUnitsAsc eligible, l.asset = a :=
      fun l hl => hasset l ((sortUnitsAsc_perm eligible).mem_iff.mp hl)
    refine ⟨update_balance_total _ _ _ hall' (sortUnitsAsc_pairwise eligible) h0 ?_, ?_⟩
    · rw [hsortedsum]; exact hle
    · rw [update_balance_sum _ _ _ hall' (sortUnitsAsc_pairwise eligible) h0
        (by rw [hsortedsum]; exact hle), hsortedsum]
  simp only [List.mem_cons, List.not_mem_nil, or_false] at hmethod
  rcases hmethod with rfl | rfl | rfl | rfl
  · simpa only [sellDepletion, if_pos] using hACB
  · have h := tax_calculator_XYFO_conserves selling_units selling_price eligible
      (sortDateAsc eligible) (sortDateAsc_perm eligible) hpos h0 hle
    simp only [sellDepletion, reduceIte]
    exact ⟨h.1, h.2⟩
  · have h := tax_calculator_XYFO_conserves selling_units selling_price eligible
      (sortDateDesc eligible) (sortDateDesc_perm eligible) hpos h0 hle
    simp only [sellDepletion, reduceIte]
    exact ⟨h.1, h.2⟩
  · have h := tax_calculator_XYFO_conserves selling_units selling_price eligible
      (sortPriceDesc eligible) (sortPriceDesc_perm eligible) hpos h0 hle
    simp only [sellDepletion, reduceIte]
    exact ⟨h.1, h.2⟩

/-- Witness for C1's corrected theorem: a concrete ACB sell of 11 units
against eligible lots holding 10 and 1 units removes exactly 11 units. -/
theorem claim_C1_witness :
    (sellDepletion "ACB" [⟨"A", 10, 1, "EUR", 1⟩, ⟨"A", 1, 1, "EUR", 2⟩] 11 2 "A").2 = 11 ∧
    sumUnits (sellDepletion "ACB" [⟨"A", 10, 1, "EUR", 1⟩, ⟨"A", 1, 1, "EUR", 2⟩] 11 2 "A").1
      = sumUnits [⟨"A", (10 : ℚ), 1, "EUR", 1⟩, ⟨"A", 1, 1, "EUR", 2⟩] - 11 :=
  claim_C1_sell_depletion_conservation "ACB" (by norm_num)
    [⟨"A", 10, 1, "EUR", 1⟩, ⟨"A", 1, 1, "EUR", 2⟩] 11 2 "A"
    (by intro l hl; fin_cases hl <;> rfl)
    (by intro l hl; fin_cases hl <;> norm_num)
    (by norm_num)
    (by norm_num [sumUnits])

/-- Counterexample to C1 as stated.  A swap is a disposal, and the Swap
branch (lines 386-391) calls `update_balance` on the eligible slice in ledger
order, without the ascending-by-units sort of the Sell branch.  On lots
holding 10 and 1 units (in that order) with a requested swap-out of 11 — not
exceeding the slice total of 11 — the cascade removes only 6.5 units. -/
theorem claim_C1_counterexample :
    sumUnits (eligibleLots [⟨"A", 10, 1, "EUR", 1⟩, ⟨"A", 1, 1, "EUR", 2⟩] "A" 3) = 11 ∧
    (update_balance (eligibleLots [⟨"A", 10, 1, "EUR", 1⟩, ⟨"A", 1, 1, "EUR", 2⟩] "A" 3)
      11 "A").2 = 13 / 2 ∧
    ((13 : ℚ) / 2 ≠ 11) ∧
    sumUnits ((processSwap ⟨"ACB", "EUR"⟩ [⟨"A", 10, 1, "EUR", 1⟩, ⟨"A", 1, 1, "EUR", 2⟩]
        ⟨3, "Swap", "A", 11, 0, "EUR"⟩ ⟨3, "Swap", "B", 1, 0, "EUR"⟩).filter
        fun l => l.asset = "A") = 9 / 2 := by
  refine ⟨?_, ?_, by norm_num, ?_⟩
  · norm_num [eligibleLots, sumUnits]
  · norm_num [eligibleLots, update_balance, update_balance_loop,
      calculate_units_to_remove_from_purchase_order]
  · norm_num [processSwap, eligibleLots, update_balance, update_balance_loop,
      calculate_units_to_remove_from_purchase_order, swap_new_lot, rebalance,
      sortDateAsc, List.insertionSort, List.orderedInsert, lotDateLE,
      sumUnits, weightedValue, List.filter_cons,
      show ("B" : String) ≠ "A" from by decide]

/-! ## Claim C2 -/

/-- C2, corrected.  For every SELL event requesting more units of an asset
than the sum of units held across that asset's eligible lots, the event loop
raises the fatal insufficient-balance error (and, the raise aborting the
branch before any re-assignment of `df_balance`, leaves the ledger
untouched).  (As stated the claim is false: the Swap branch performs no
sufficiency check at all; see the counterexample.) -/
theorem claim_C2_sell_insufficient_balance (cfg : Config) (df_balance : List Lot)
    (sell : Tx) (average_purchase_price0 : ℚ)
    (hshort : sumUnits (eligibleLots df_balance sell.asset sell.date) < sell.units) :
    processSell cfg df_balance sell average_purchase_price0
      = .error .insufficientBalance := by
  unfold processSell
  rw [if_neg (not_le.mpr hshort)]

/-- Witness for C2's corrected theorem: selling 5 units of an asset of which
only 1 eligible unit is held is rejected, under the ACB configuration. -/
theorem claim_C2_witness :
    processSell ⟨"ACB", "EUR"⟩ [⟨"B", 1, 1, "EUR", 1⟩] ⟨2, "Sell", "B", 5, 1, "EUR"⟩ 0
      = .error .insufficientBalance :=
  claim_C2_sell_insufficient_balance ⟨"ACB", "EUR"⟩ [⟨"B", 1, 1, "EUR", 1⟩]
    ⟨2, "Sell", "B", 5, 1, "EUR"⟩ 0
    (by norm_num [eligibleLots, sumUnits])

/-- Counterexample to C2 as stated.  A swap-out of 5 units of an asset with
only 1 eligible unit held is a disposal requesting more than the holdings,
yet the Swap branch — whose code contains no sufficiency check and no raise —
completes and rewrites the ledger (the 1 held unit is consumed and the
swapped-in lot is inserted), instead of failing with the ledger unchanged. -/
theorem claim_C2_counterexample :
    sumUnits (eligibleLots [⟨"B", 1, 1, "EUR", 1⟩] "B" 2) < 5 ∧
    processSwap ⟨"ACB", "EUR"⟩ [⟨"B", 1, 1, "EUR", 1⟩]
        ⟨2, "Swap", "B", 5, 0, "EUR"⟩ ⟨2, "Swap", "C", 2, 0, "EUR"⟩
      = [⟨"C", 2, 5 / 2, "EUR", 2⟩] ∧
    ([⟨"C", (2 : ℚ), 5 / 2, "EUR", 2⟩] : List Lot) ≠ [⟨"B", 1, 1, "EUR", 1⟩] := by
  refine ⟨by norm_num [eligibleLots, sumUnits], ?_, by decide⟩
  norm_num [processSwap, eligibleLots, update_balance, update_balance_loop,
    calculate_units_to_remove_from_purchase_order, swap_new_lot, rebalance,
    sortDateAsc, List.insertionSort, List.orderedInsert, lotDateLE,
    sumUnits, weightedValue, List.filter_cons]

/-! ## Claim C3 -/

/-- C3 exposes a code bug.  The `mining_taxes` loop (line 575) sets
`capita_gain = mine["Unit Price"]`, ignoring the Units column, where the
claim (and the stated intent of taxing the full received value at receipt)
requires `unit_price * units`.  Evaluated at a mining transaction of 2 units
at price 100: the emitted record carries capital gain 100, not the received
value 200; average price and the (unconditional) tax factor do follow the
claim, and the loop indeed never touches the balance. -/
theorem claim_C3_mining_record_at_failing_input :
    (mining_tax_record ⟨5, "Mining", "BTC", 2, 100, "EUR"⟩).capitalGain = 100 ∧
    ((100 : ℚ) ≠ 100 * 2) ∧
    (mining_tax_record ⟨5, "Mining", "BTC", 2, 100, "EUR"⟩).averageUnitPrice = 100 ∧
    (mining_tax_record ⟨5, "Mining", "BTC", 2, 100, "EUR"⟩).taxes
      = (mining_tax_record ⟨5, "Mining", "BTC", 2, 100, "EUR"⟩).capitalGain * TAX_RATE ∧
    (mining_tax_record ⟨5, "Mining", "BTC", 2, 100, "EUR"⟩).netProfit
      = (mining_tax_record ⟨5, "Mining", "BTC", 2, 100, "EUR"⟩).capitalGain
        - (mining_tax_record ⟨5, "Mining", "BTC", 2, 100, "EUR"⟩).taxes := by
  norm_num [mining_tax_record]

/-! ## Lemmas about eligible-lot selection and balance re-assembly -/

lemma mem_eligibleLots {l : Lot} {L : List Lot} {a : String} {d : ℤ} :
    l ∈ eligibleLots L a d ↔ l ∈ L ∧ l.asset = a ∧ l.date < d := by
  simp [eligibleLots]

/-- Every row of the balance returned by `update_balance` keeps the Asset,
Date, Unit Price and Currency of an input row. -/
lemma update_balance_shape (lots : List Lot) (u : ℚ) (a : String) :
    ∀ l' ∈ (update_balance lots u a).1,
      ∃ l ∈ lots, l'.asset = l.asset ∧ l'.date = l.date ∧
        l'.unitPrice = l.unitPrice ∧ l'.currency = l.currency := by
  intro l' hl'
  unfold update_balance at hl'
  exact update_balance_loop_shape a _ lots _ 1 0 l' (List.mem_filter.mp hl').1

/-- Filtering the re-assembled balance back down to the pre-cutoff rows of
the disposed asset recovers exactly the updated slice's rows of that kind:
the other two concatenated parts fail the filter by construction. -/
lemma rebalance_filter (df_balance : List Lot) (a : String) (d : ℤ)
    (updated : List Lot) :
    ((rebalance df_balance a d updated).filter
        fun l => l.asset = a ∧ l.date < d).Perm
      (updated.filter fun l => l.asset = a ∧ l.date < d) := by
  unfold rebalance sortDateAsc
  refine ((List.perm_insertionSort lotDateLE _).filter _).trans ?_
  rw [List.filter_append, List.filter_append]
  have h1 : (df_balance.filter fun l => l.asset ≠ a ∧ l.date < d).filter
      (fun l => l.asset = a ∧ l.date < d) = [] := by
    rw [List.filter_eq_nil_iff]
    intro x hx
    have hx' := (List.mem_filter.mp hx).2
    simp only [decide_eq_true_eq] at hx' ⊢
    exact fun hcon => hx'.1 hcon.1
  have h2 : (df_balance.filter fun l => d < l.date).filter
      (fun l => l.asset = a ∧ l.date < d) = [] := by
    rw [List.filter_eq_nil_iff]
    intro x hx
    have hx' := (List.mem_filter.mp hx).2
    simp only [decide_eq_true_eq] at hx' ⊢
    exact fun hcon => absurd hcon.2 (not_lt.mpr (le_of_lt hx'))
  rw [h1, h2, List.append_nil, List.append_nil]

/-- A slice whose rows all pass the eligibility filter is left intact by it. -/
lemma filter_eq_self_of_eligible (updated : List Lot) (a : String) (d : ℤ)
    (hupd : ∀ l ∈ updated, l.asset = a ∧ l.date < d) :
    (updated.filter fun l => l.asset = a ∧ l.date < d) = updated := by
  apply List.filter_eq_self.mpr
  intro l hl
  simpa using hupd l hl

/-! ## Claim C4 -/

/-- C4, corrected.  For every swap event the out-asset's eligible lots are
depleted by the ACB cascading redistribution (`update_balance` on the slice
in ledger order) irrespective of the configured method — the Swap branch
never consults METHOD — and one new lot for the in-asset is inserted at the
derived price (pooled average of the eligible out-lots scaled by
units_out / units_in) and the swap transaction's date.  (As stated the claim
is false: under a FIFO/LIFO/HIFO configuration the out-lots are not depleted
by that method; see the counterexample.) -/
theorem claim_C4_swap_uses_cascade_for_any_method (cfg cfg' : Config)
    (df_balance : List Lot) (asset_out asset_in : Tx)
    (hne : asset_in.asset ≠ asset_out.asset) :
    processSwap cfg df_balance asset_out asset_in
      = processSwap cfg' df_balance asset_out asset_in ∧
    ((processSwap cfg df_balance asset_out asset_in).filter
        fun l => l.asset = asset_out.asset ∧ l.date < asset_out.date).Perm
      (update_balance (eligibleLots df_balance asset_out.asset asset_out.date)
        asset_out.units asset_out.asset).1 ∧
    swap_new_lot df_balance asset_out asset_in
      ∈ processSwap cfg df_balance asset_out asset_in ∧
    (swap_new_lot df_balance asset_out asset_in).date = asset_in.date ∧
    (swap_new_lot df_balance asset_out asset_in).unitPrice
      = weightedValue (eligibleLots df_balance asset_out.asset asset_out.date)
          / sumUnits (eligibleLots df_balance asset_out.asset asset_out.date)
          * asset_out.units / asset_in.units := by
  refine ⟨rfl, ?_, ?_, rfl, rfl⟩
  · unfold processSwap
    refine (rebalance_filter df_balance asset_out.asset asset_out.date _).trans ?_
    rw [List.filter_append]
    have hupd : ∀ l ∈ (update_balance (eligibleLots df_balance asset_out.asset asset_out.date)
        asset_out.units asset_out.asset).1, l.asset = asset_out.asset ∧ l.date < asset_out.date := by
      intro l hl
      obtain ⟨x, hx, hfa, hfd, _, _⟩ := update_balance_shape _ _ _ l hl
      obtain ⟨-, hxa, hxd⟩ := mem_eligibleLots.mp hx
      exact ⟨hfa.trans hxa, hfd ▸ hxd⟩
    rw [filter_eq_self_of_eligible _ _ _ hupd]
    have hnew : (([swap_new_lot df_balance asset_out asset_in] : List Lot).filter
        fun l => l.asset = asset_out.asset ∧ l.date < asset_out.date) = [] := by
      rw [List.filter_eq_nil_iff]
      intro x hx
      rw [List.mem_singleton] at hx
      subst hx
      simp only [decide_eq_true_eq]
      exact fun hcon => hne hcon.1
    rw [hnew, List.append_nil]
  · unfold processSwap rebalance sortDateAsc
    rw [(List.perm_insertionSort lotDateLE _).mem_iff]
    simp

/-- Witness for C4's corrected theorem at a concrete swap. -/
theorem claim_C4_witness :
    processSwap ⟨"FIFO", "EUR"⟩ [⟨"A", 10, 1, "EUR", 1⟩] ⟨3, "Swap", "A", 4, 0, "EUR"⟩
        ⟨3, "Swap", "B", 2, 0, "EUR"⟩
      = processSwap ⟨"HIFO", "USD"⟩ [⟨"A", 10, 1, "EUR", 1⟩] ⟨3, "Swap", "A", 4, 0, "EUR"⟩
        ⟨3, "Swap", "B", 2, 0, "EUR"⟩ ∧
    (swap_new_lot [⟨"A", 10, 1, "EUR", 1⟩] ⟨3, "Swap", "A", 4, 0, "EUR"⟩
        ⟨3, "Swap", "B", 2, 0, "EUR"⟩).date = 3 :=
  ⟨(claim_C4_swap_uses_cascade_for_any_method ⟨"FIFO", "EUR"⟩ ⟨"HIFO", "USD"⟩
      [⟨"A", 10, 1, "EUR", 1⟩] ⟨3, "Swap", "A", 4, 0, "EUR"⟩ ⟨3, "Swap", "B", 2, 0, "EUR"⟩
      (by decide)).1,
    (claim_C4_swap_uses_cascade_for_any_method ⟨"FIFO", "EUR"⟩ ⟨"HIFO", "USD"⟩
      [⟨"A", 10, 1, "EUR", 1⟩] ⟨3, "Swap", "A", 4, 0, "EUR"⟩ ⟨3, "Swap", "B", 2, 0, "EUR"⟩
      (by decide)).2.2.2.1⟩

/-- Counterexample to C4 as stated.  With METHOD = "FIFO" configured, a swap
out of 11 units against lots of 10 and 1 units leaves 4.5 units of the first
lot in the ledger, whereas the FIFO depletion of the sell branch would have
consumed both lots entirely: the swap does not use the configured method. -/
theorem claim_C4_counterexample :
    ((processSwap ⟨"FIFO", "EUR"⟩ [⟨"A", 10, 1, "EUR", 1⟩, ⟨"A", 1, 2, "EUR", 2⟩]
        ⟨3, "Swap", "A", 11, 0, "EUR"⟩ ⟨3, "Swap", "B", 1, 0, "EUR"⟩).filter
        fun l => l.asset = "A" ∧ l.date < 3)
      = [⟨"A", 9 / 2, 1, "EUR", 1⟩] ∧
    (sellDepletion "FIFO" (eligibleLots [⟨"A", 10, 1, "EUR", 1⟩, ⟨"A", 1, 2, "EUR", 2⟩]
        "A" 3) 11 0 "A").1 = [] ∧
    ([⟨"A", (9 : ℚ) / 2, 1, "EUR", 1⟩] : List Lot) ≠ [] := by
  refine ⟨?_, ?_, by decide⟩
  · norm_num [processSwap, eligibleLots, update_balance, update_balance_loop,
      calculate_units_to_remove_from_purchase_order, swap_new_lot, rebalance,
      sortDateAsc, List.insertionSort, List.orderedInsert, lotDateLE,
      sumUnits, weightedValue, List.filter_cons,
      show ("B" : String) ≠ "A" from by decide]
  · norm_num [sellDepletion, eligibleLots, tax_calculator_XYFO,
      tax_calculator_XYFO_loop, sortDateAsc, List.insertionSort,
      List.orderedInsert, lotDateLE, List.filter_cons,
      show ("FIFO" : String) ≠ "ACB" from by decide]

/-! ## Lemmas about the Sell branch -/

/-- The method-indexed working order of the FIFO/LIFO/HIFO branch is a
permutation of the eligible slice. -/
lemma sellSorted_perm (method : String) (eligible : List Lot) :
    (if method = "FIFO" then sortDateAsc eligible
      else if method = "LIFO" then sortDateDesc eligible
      else sortPriceDesc eligible).Perm eligible := by
  by_cases h1 : method = "FIFO"
  · rw [if_pos h1]; exact sortDateAsc_perm eligible
  · rw [if_neg h1]
    by_cases h2 : method = "LIFO"
    · rw [if_pos h2]; exact sortDateDesc_perm eligible
    · rw [if_neg h2]; exact sortPriceDesc_perm eligible

/-- Every row surviving the sell-branch depletion has strictly positive units
and keeps the Asset and Date of an eligible row. -/
lemma sellDepletion_out (method : String) (eligible : List Lot) (u p : ℚ) (a : String) :
    ∀ l' ∈ (sellDepletion method eligible u p a).1,
      0 < l'.units ∧ ∃ l ∈ eligible, l'.asset = l.asset ∧ l'.date = l.date := by
  intro l' hl'
  unfold sellDepletion at hl'
  by_cases hm : method = "ACB"
  · rw [if_pos hm] at hl'
    refine ⟨?_, ?_⟩
    · unfold update_balance at hl'
      have := (List.mem_filter.mp hl').2
      simpa using this
    · obtain ⟨x, hx, hfa, hfd, -, -⟩ := update_balance_shape _ _ _ l' hl'
      exact ⟨x, (sortUnitsAsc_perm eligible).mem_iff.mp hx, hfa, hfd⟩
  · rw [if_neg hm] at hl'
    refine ⟨by simpa using (List.mem_filter.mp hl').2, ?_⟩
    have hmem := (List.mem_filter.mp hl').1
    simp only [tax_calculator_XYFO] at hmem
    obtain ⟨x, hx, hfa, hfd, -, -⟩ := tax_calculator_XYFO_loop_shape p _ u 0 0 l' hmem
    exact ⟨x, (sellSorted_perm method eligible).mem_iff.mp hx, hfa, hfd⟩

/-- Structure of every successful Sell event: the new balance is the
re-assembly of the old one around the depleted slice, and the record's taxes
and net profit are tied to its capital gain exactly as the two calculators
compute them. -/
lemma processSell_ok_structure {cfg : Config} {df_balance : List Lot} {sell : Tx}
    {average_purchase_price0 : ℚ} {out : List Lot × SalesRecord}
    (h : processSell cfg df_balance sell average_purchase_price0 = .ok out) :
    out.1 = rebalance df_balance sell.asset sell.date
      (sellDepletion cfg.METHOD (eligibleLots df_balance sell.asset sell.date)
        sell.units sell.unitPrice sell.asset).1 ∧
    out.2.taxes = (if out.2.capitalGain > 0 then out.2.capitalGain * TAX_RATE else 0) ∧
    out.2.netProfit = out.2.capitalGain - out.2.taxes := by
  unfold processSell at h
  by_cases hs : sell.units ≤ sumUnits (eligibleLots df_balance sell.asset sell.date)
  · rw [if_pos hs] at h
    by_cases hm : cfg.METHOD = "ACB"
    · rw [if_pos hm] at h
      rw [Except.ok.injEq] at h
      subst h
      refine ⟨?_, rfl, rfl⟩
      unfold sellDepletion
      rw [hm, if_pos rfl]
    · rw [if_neg hm] at h
      by_cases hm' : cfg.METHOD ∈ (["FIFO", "LIFO", "HIFO"] : List String)
      · rw [if_pos hm'] at h
        rw [Except.ok.injEq] at h
        subst h
        refine ⟨?_, rfl, rfl⟩
        unfold sellDepletion
        rw [if_neg hm]
      · rw [if_neg hm'] at h
        exact absurd h (by simp)
  · rw [if_neg hs] at h
    exact absurd h (by simp)

/-- Membership in the re-assembled balance, unfolded to the three
concatenated regions. -/
lemma mem_rebalance {x : Lot} {df_balance : List Lot} {a : String} {d : ℤ}
    {updated : List Lot} :
    x ∈ rebalance df_balance a d updated ↔
      x ∈ updated ∨ x ∈ df_balance.filter (fun l => l.asset ≠ a ∧ l.date < d)
        ∨ x ∈ df_balance.filter fun l => d < l.date := by
  unfold rebalance sortDateAsc
  rw [(List.perm_insertionSort lotDateLE _).mem_iff]
  simp [List.mem_append, or_assoc]

/-- Counting frame lemma for the re-assembly: a row of another asset dated
off the event date, or of the disposed asset dated strictly after it, occurs
in the re-assembled balance exactly as often as in the original one, provided
the updated slice only holds pre-cutoff rows of the disposed asset. -/
lemma count_rebalance (df_balance : List Lot) (a : String) (d : ℤ)
    (updated : List Lot)
    (hupd : ∀ l ∈ updated, l.asset = a ∧ l.date < d) (lot : Lot)
    (hframe : (lot.asset ≠ a ∧ lot.date ≠ d) ∨ (lot.asset = a ∧ d < lot.date)) :
    List.count lot (rebalance df_balance a d updated) = List.count lot df_balance := by
  unfold rebalance sortDateAsc
  rw [(List.perm_insertionSort lotDateLE _).count_eq]
  rw [List.count_append, List.count_append]
  have hnotupd : lot ∉ updated := by
    intro hmem
    obtain ⟨ha, hd⟩ := hupd lot hmem
    rcases hframe with ⟨hna, -⟩ | ⟨-, hgt⟩
    · exact hna ha
    · exact absurd hd (not_lt.mpr (le_of_lt hgt))
  rw [List.count_eq_zero.mpr hnotupd, zero_add]
  rcases hframe with ⟨hna, hnd⟩ | ⟨ha, hgt⟩
  · rcases lt_trichotomy lot.date d with hlt | heq | hgt
    · have h1 : List.count lot (df_balance.filter fun l => l.asset ≠ a ∧ l.date < d)
          = List.count lot df_balance := List.count_filter (by simp [hna, hlt])
      have h2 : List.count lot (df_balance.filter fun l => d < l.date) = 0 := by
        rw [List.count_eq_zero]
        intro hmem
        have := (List.mem_filter.mp hmem).2
        simp only [decide_eq_true_eq] at this
        exact absurd hlt (not_lt.mpr (le_of_lt this))
      rw [h1, h2, add_zero]
    · exact absurd heq hnd
    · have h1 : List.count lot (df_balance.filter fun l => l.asset ≠ a ∧ l.date < d) = 0 := by
        rw [List.count_eq_zero]
        intro hmem
        have := (List.mem_filter.mp hmem).2
        simp only [decide_eq_true_eq] at this
        exact absurd hgt (not_lt.mpr (le_of_lt this.2))
      have h2 : List.count lot (df_balance.filter fun l => d < l.date)
          = List.count lot df_balance := List.count_filter (by simp [hgt])
      rw [h1, h2, zero_add]
  · have h1 : List.count lot (df_balance.filter fun l => l.asset ≠ a ∧ l.date < d) = 0 := by
      rw [List.count_eq_zero]
      intro hmem
      have := (List.mem_filter.mp hmem).2
      simp only [decide_eq_true_eq] at this
      exact this.1 ha
    have h2 : List.count lot (df_balance.filter fun l => d < l.date)
        = List.count lot df_balance := List.count_filter (by simp [hgt])
    rw [h1, h2, zero_add]

/-! ## Claim C5 -/

/-- C5, corrected.  For every ACB sell with a non-empty eligible lot set, the
REPORTED average unit price is the pooled weighted average
`sum(units * price) / sum(units)` over all eligible lots computed before
depletion, but rounded to two decimal places by the `round(..., 2)` on the
stored record; the reported capital gain is
`units_to_sell * sell_price - units_to_sell * pooled_average` using the
unrounded pooled average.  Both reported values are therefore unchanged by
any permutation of the order in which the eligible lots are visited. -/
theorem claim_C5_acb_pooled_record (cfg : Config) (hm : cfg.METHOD = "ACB")
    (L₁ L₂ : List Lot) (sell : Tx) (a₁ a₂ : ℚ)
    (hperm : L₁.Perm L₂)
    (_hne : eligibleLots L₁ sell.asset sell.date ≠ [])
    (out₁ out₂ : List Lot × SalesRecord)
    (h₁ : processSell cfg L₁ sell a₁ = .ok out₁)
    (h₂ : processSell cfg L₂ sell a₂ = .ok out₂) :
    out₁.2.averageUnitPrice
      = round2 (weightedValue (eligibleLots L₁ sell.asset sell.date)
          / sumUnits (eligibleLots L₁ sell.asset sell.date)) ∧
    out₁.2.capitalGain
      = sell.units * sell.unitPrice
        - sell.units * (weightedValue (eligibleLots L₁ sell.asset sell.date)
          / sumUnits (eligibleLots L₁ sell.asset sell.date)) ∧
    out₁.2 = out₂.2 := by
  have hele : (eligibleLots L₂ sell.asset sell.date).Perm
      (eligibleLots L₁ sell.asset sell.date) := (hperm.filter _).symm
  have hw₁ : weightedValue (sortUnitsAsc (eligibleLots L₁ sell.asset sell.date))
      = weightedValue (eligibleLots L₁ sell.asset sell.date) :=
    weightedValue_perm (sortUnitsAsc_perm _)
  have hs₁ : sumUnits (sortUnitsAsc (eligibleLots L₁ sell.asset sell.date))
      = sumUnits (eligibleLots L₁ sell.asset sell.date) :=
    sumUnits_perm (sortUnitsAsc_perm _)
  have hw₂ : weightedValue (sortUnitsAsc (eligibleLots L₂ sell.asset sell.date))
      = weightedValue (eligibleLots L₁ sell.asset sell.date) :=
    weightedValue_perm ((sortUnitsAsc_perm _).trans hele)
  have hs₂ : sumUnits (sortUnitsAsc (eligibleLots L₂ sell.asset sell.date))
      = sumUnits (eligibleLots L₁ sell.asset sell.date) :=
    sumUnits_perm ((sortUnitsAsc_perm _).trans hele)
  simp only [processSell, hm, reduceIte] at h₁ h₂
  by_cases hsuf₁ : sell.units ≤ sumUnits (eligibleLots L₁ sell.asset sell.date)
  · rw [if_pos hsuf₁] at h₁
    rw [if_pos (by rw [sumUnits_perm hele]; exact hsuf₁)] at h₂
    rw [Except.ok.injEq] at h₁ h₂
    subst h₁
    subst h₂
    simp only [tax_calculator_ACB]
    rw [hw₁, hs₁, hw₂, hs₂]
    exact ⟨rfl, rfl, rfl⟩
  · rw [if_neg hsuf₁] at h₁
    exact absurd h₁ (by simp)

/-- Witness for C5's corrected theorem: eligible lots (10 units @ 1) and
(5 units @ 2) in the two visiting orders, selling 6 units at price 2. -/
theorem claim_C5_witness :
    (([⟨"A", 7, 1, "EUR", 1⟩, ⟨"A", 2, 2, "EUR", 2⟩],
        (⟨4, 11 / 10, 29 / 10, 133 / 100⟩ : SalesRecord)) :
        List Lot × SalesRecord).2.averageUnitPrice
      = round2 (weightedValue (eligibleLots [⟨"A", 10, 1, "EUR", 1⟩, ⟨"A", 5, 2, "EUR", 2⟩]
          "A" 3) / sumUnits (eligibleLots [⟨"A", 10, 1, "EUR", 1⟩, ⟨"A", 5, 2, "EUR", 2⟩]
          "A" 3)) ∧
    (([⟨"A", 7, 1, "EUR", 1⟩, ⟨"A", 2, 2, "EUR", 2⟩],
        (⟨4, 11 / 10, 29 / 10, 133 / 100⟩ : SalesRecord)) :
        List Lot × SalesRecord).2.capitalGain
      = 6 * 2 - 6 * (weightedValue (eligibleLots [⟨"A", 10, 1, "EUR", 1⟩, ⟨"A", 5, 2, "EUR", 2⟩]
          "A" 3) / sumUnits (eligibleLots [⟨"A", 10, 1, "EUR", 1⟩, ⟨"A", 5, 2, "EUR", 2⟩]
          "A" 3)) ∧
    (([⟨"A", 7, 1, "EUR", 1⟩, ⟨"A", 2, 2, "EUR", 2⟩],
        (⟨4, 11 / 10, 29 / 10, 133 / 100⟩ : SalesRecord)) :
        List Lot × SalesRecord).2
      = (([⟨"A", 7, 1, "EUR", 1⟩, ⟨"A", 2, 2, "EUR", 2⟩],
        (⟨4, 11 / 10, 29 / 10, 133 / 100⟩ : SalesRecord)) :
        List Lot × SalesRecord).2 :=
  claim_C5_acb_pooled_record ⟨"ACB", "EUR"⟩ rfl
    [⟨"A", 10, 1, "EUR", 1⟩, ⟨"A", 5, 2, "EUR", 2⟩]
    [⟨"A", 5, 2, "EUR", 2⟩, ⟨"A", 10, 1, "EUR", 1⟩]
    ⟨3, "Sell", "A", 6, 2, "EUR"⟩ 0 0
    (List.Perm.swap _ _ _)
    (by decide)
    _ _
    (by norm_num [processSell, eligibleLots, sortUnitsAsc, List.insertionSort,
      List.orderedInsert, lotUnitsLE, weightedValue, sumUnits, tax_calculator_ACB,
      update_balance, update_balance_loop, calculate_units_to_remove_from_purchase_order,
      rebalance, sortDateAsc, lotDateLE, round2, round_eq, TAX_RATE, List.filter_cons])
    (by norm_num [processSell, eligibleLots, sortUnitsAsc, List.insertionSort,
      List.orderedInsert, lotUnitsLE, weightedValue, sumUnits, tax_calculator_ACB,
      update_balance, update_balance_loop, calculate_units_to_remove_from_purchase_order,
      rebalance, sortDateAsc, lotDateLE, round2, round_eq, TAX_RATE, List.filter_cons])

/-- Counterexample to C5 as stated.  On lots (10 @ 1) and (5 @ 2), selling 6
units at price 2, the pooled weighted average is 4/3, but the record stores
`round(4/3, 2) = 1.33`: the reported average_unit_price does not equal the
pooled weighted average. -/
theorem claim_C5_counterexample :
    processSell ⟨"ACB", "EUR"⟩ [⟨"A", 10, 1, "EUR", 1⟩, ⟨"A", 5, 2, "EUR", 2⟩]
        ⟨3, "Sell", "A", 6, 2, "EUR"⟩ 0
      = .ok ([⟨"A", 7, 1, "EUR", 1⟩, ⟨"A", 2, 2, "EUR", 2⟩],
        ⟨4, 11 / 10, 29 / 10, 133 / 100⟩) ∧
    weightedValue (eligibleLots [⟨"A", 10, 1, "EUR", 1⟩, ⟨"A", 5, 2, "EUR", 2⟩] "A" 3)
      / sumUnits (eligibleLots [⟨"A", 10, 1, "EUR", 1⟩, ⟨"A", 5, 2, "EUR", 2⟩] "A" 3)
      = 4 / 3 ∧
    ((133 : ℚ) / 100 ≠ 4 / 3) := by
  refine ⟨?_, ?_, by norm_num⟩
  · norm_num [processSell, eligibleLots, sortUnitsAsc, List.insertionSort,
      List.orderedInsert, lotUnitsLE, weightedValue, sumUnits, tax_calculator_ACB,
      update_balance, update_balance_loop, calculate_units_to_remove_from_purchase_order,
      rebalance, sortDateAsc, lotDateLE, round2, round_eq, TAX_RATE, List.filter_cons]
  · norm_num [eligibleLots, weightedValue, sumUnits, List.filter_cons]

/-! ## Claim C6 -/

/-- C6, confirmed for the tax records of the Sell branch (any configured
method): the record's taxes equal `max(0, capital_gain) * TAX_RATE` — in
particular exactly 0 whenever the capital gain is nonpositive — and its net
profit equals `capital_gain - taxes`.  The mining-receipt records, produced
by a separate loop whose tax lacks the positivity guard, satisfy the same
relations whenever the receipt price (their capital gain) is nonnegative. -/
theorem claim_C6_tax_record_invariant :
    (∀ (cfg : Config) (df_balance : List Lot) (sell : Tx) (a0 : ℚ)
      (out : List Lot × SalesRecord),
      processSell cfg df_balance sell a0 = .ok out →
        out.2.taxes = max 0 out.2.capitalGain * TAX_RATE ∧
        (out.2.capitalGain ≤ 0 → out.2.taxes = 0) ∧
        out.2.netProfit = out.2.capitalGain - out.2.taxes) ∧
    (∀ mine : Tx, 0 ≤ mine.unitPrice →
      (mining_tax_record mine).taxes
        = max 0 (mining_tax_record mine).capitalGain * TAX_RATE ∧
      ((mining_tax_record mine).capitalGain ≤ 0 → (mining_tax_record mine).taxes = 0) ∧
      (mining_tax_record mine).netProfit
        = (mining_tax_record mine).capitalGain - (mining_tax_record mine).taxes) := by
  constructor
  · intro cfg df_balance sell a0 out h
    obtain ⟨-, htax, hnet⟩ := processSell_ok_structure h
    refine ⟨?_, ?_, hnet⟩
    · rw [htax]
      by_cases hcg : out.2.capitalGain > 0
      · rw [if_pos hcg, max_eq_right (le_of_lt hcg)]
      · rw [if_neg hcg, max_eq_left (not_lt.mp hcg), zero_mul]
    · intro hle
      rw [htax, if_neg (not_lt.mpr hle)]
  · intro mine hp
    unfold mining_tax_record
    refine ⟨?_, ?_, rfl⟩
    · simp only [max_eq_right hp]
    · intro hle
      have : mine.unitPrice = 0 := le_antisymm hle hp
      simp [this]

/-- Witness for C6 at a concrete FIFO sell with a loss (capital gain -10,
taxes 0) and a concrete mining receipt. -/
theorem claim_C6_witness :
    ((⟨-10, 0, -10, 0⟩ : SalesRecord).taxes = max 0 (-10 : ℚ) * TAX_RATE ∧
      ((-10 : ℚ) ≤ 0 → (⟨-10, 0, -10, 0⟩ : SalesRecord).taxes = 0) ∧
      (⟨-10, 0, -10, 0⟩ : SalesRecord).netProfit
        = (⟨-10, 0, -10, 0⟩ : SalesRecord).capitalGain
          - (⟨-10, 0, -10, 0⟩ : SalesRecord).taxes) ∧
    ((mining_tax_record ⟨5, "Mining", "BTC", 2, 100, "EUR"⟩).taxes
        = max 0 (mining_tax_record ⟨5, "Mining", "BTC", 2, 100, "EUR"⟩).capitalGain
          * TAX_RATE ∧
      ((mining_tax_record ⟨5, "Mining", "BTC", 2, 100, "EUR"⟩).capitalGain ≤ 0 →
        (mining_tax_record ⟨5, "Mining", "BTC", 2, 100, "EUR"⟩).taxes = 0) ∧
      (mining_tax_record ⟨5, "Mining", "BTC", 2, 100, "EUR"⟩).netProfit
        = (mining_tax_record ⟨5, "Mining", "BTC", 2, 100, "EUR"⟩).capitalGain
          - (mining_tax_record ⟨5, "Mining", "BTC", 2, 100, "EUR"⟩).taxes) := by
  constructor
  · have h := claim_C6_tax_record_invariant.1 ⟨"FIFO", "EUR"⟩
      [⟨"A", 10, 10, "EUR", 1⟩] ⟨2, "Sell", "A", 10, 9, "EUR"⟩ 0
      ([⟨"A", 10, 10, "EUR", 1⟩].filter fun l => (2 : ℤ) < l.date, ⟨-10, 0, -10, 0⟩)
      (by norm_num [processSell, eligibleLots, sortUnitsAsc, List.insertionSort,
        List.orderedInsert, lotUnitsLE, sumUnits, tax_calculator_XYFO,
        tax_calculator_XYFO_loop, rebalance, sortDateAsc, lotDateLE,
        round2, round_eq, TAX_RATE, List.filter_cons,
        show ("FIFO" : String) ≠ "ACB" from by decide])
    exact h
  · exact claim_C6_tax_record_invariant.2 ⟨5, "Mining", "BTC", 2, 100, "EUR"⟩ (by norm_num)

/-! ## Claim C7 -/

/-- C7, confirmed.  For every disposal event the lots eligible for depletion
are exactly the open lots of the disposed asset dated strictly before the
event's date (both disposal branches select with `Date < change date`), so a
lot acquired at the disposal's own timestamp is never part of the slice the
depletion pass runs on. -/
theorem claim_C7_eligible_strictly_before (df_balance : List Lot) (asset : String)
    (date_cutoff : ℤ) (l : Lot) :
    (l ∈ eligibleLots df_balance asset date_cutoff
      ↔ l ∈ df_balance ∧ l.asset = asset ∧ l.date < date_cutoff) ∧
    (l.date = date_cutoff → l ∉ eligibleLots df_balance asset date_cutoff) := by
  refine ⟨mem_eligibleLots, ?_⟩
  intro hd hmem
  obtain ⟨-, -, hlt⟩ := mem_eligibleLots.mp hmem
  rw [hd] at hlt
  exact lt_irrefl _ hlt

/-- Witness for C7 at a concrete ledger: the same-day lot is excluded, the
earlier lot is eligible. -/
theorem claim_C7_witness :
    ((⟨"A", 2, 1, "EUR", 5⟩ : Lot) ∈ eligibleLots
        [⟨"A", 1, 1, "EUR", 1⟩, ⟨"A", 2, 1, "EUR", 5⟩] "A" 5
      ↔ (⟨"A", 2, 1, "EUR", 5⟩ : Lot) ∈ [⟨"A", 1, 1, "EUR", 1⟩, ⟨"A", 2, 1, "EUR", 5⟩]
        ∧ (⟨"A", 2, 1, "EUR", 5⟩ : Lot).asset = "A"
        ∧ (⟨"A", 2, 1, "EUR", 5⟩ : Lot).date < 5) ∧
    ((⟨"A", 2, 1, "EUR", 5⟩ : Lot).date = 5 →
      (⟨"A", 2, 1, "EUR", 5⟩ : Lot) ∉ eligibleLots
        [⟨"A", 1, 1, "EUR", 1⟩, ⟨"A", 2, 1, "EUR", 5⟩] "A" 5) :=
  claim_C7_eligible_strictly_before
    [⟨"A", 1, 1, "EUR", 1⟩, ⟨"A", 2, 1, "EUR", 5⟩] "A" 5 ⟨"A", 2, 1, "EUR", 5⟩

/-! ## Claim C8 -/

/-- C8, corrected.  For every successful sell event: every ledger lot of an
asset other than the sold one dated OFF the event's date (strictly before or
strictly after), and every lot of the sold asset dated strictly after the
event, occurs in the post-event ledger exactly as often as before; and the
sold asset's pre-cutoff region of the new ledger is exactly (a permutation
of) the depletion pass's output.  (As stated the claim is false: a lot of
ANOTHER asset dated exactly at the event's date is dropped by the
re-assembly, which keeps only other-asset rows with Date < event and rows of
any asset with Date > event; see the counterexample.) -/
theorem claim_C8_sell_frame (cfg : Config) (df_balance : List Lot) (sell : Tx)
    (a0 : ℚ) (out : List Lot × SalesRecord)
    (hok : processSell cfg df_balance sell a0 = .ok out) :
    (∀ lot : Lot,
      (lot.asset ≠ sell.asset ∧ lot.date ≠ sell.date)
        ∨ (lot.asset = sell.asset ∧ sell.date < lot.date) →
      List.count lot out.1 = List.count lot df_balance) ∧
    (out.1.filter fun l => l.asset = sell.asset ∧ l.date < sell.date).Perm
      (sellDepletion cfg.METHOD (eligibleLots df_balance sell.asset sell.date)
        sell.units sell.unitPrice sell.asset).1 := by
  obtain ⟨hbal, -, -⟩ := processSell_ok_structure hok
  have hupd : ∀ l ∈ (sellDepletion cfg.METHOD
      (eligibleLots df_balance sell.asset sell.date)
      sell.units sell.unitPrice sell.asset).1,
      l.asset = sell.asset ∧ l.date < sell.date := by
    intro l hl
    obtain ⟨-, x, hx, hfa, hfd⟩ := sellDepletion_out _ _ _ _ _ l hl
    obtain ⟨-, hxa, hxd⟩ := mem_eligibleLots.mp hx
    exact ⟨hfa.trans hxa, hfd ▸ hxd⟩
  constructor
  · intro lot hframe
    rw [hbal]
    exact count_rebalance df_balance sell.asset sell.date _ hupd lot hframe
  · rw [hbal]
    refine (rebalance_filter df_balance sell.asset sell.date _).trans ?_
    rw [filter_eq_self_of_eligible _ _ _ hupd]

/-- Witness for C8's corrected theorem: after an ACB sell of 1 unit of A, the
lot of asset B dated before the event is counted unchanged. -/
theorem claim_C8_witness :
    List.count (⟨"B", 2, 1, "EUR", 2⟩ : Lot)
      ([⟨"A", 2, 1, "EUR", 1⟩, ⟨"B", 2, 1, "EUR", 2⟩] : List Lot)
      = List.count (⟨"B", 2, 1, "EUR", 2⟩ : Lot)
        ([⟨"A", 3, 1, "EUR", 1⟩, ⟨"B", 2, 1, "EUR", 2⟩] : List Lot) :=
  (claim_C8_sell_frame ⟨"ACB", "EUR"⟩ [⟨"A", 3, 1, "EUR", 1⟩, ⟨"B", 2, 1, "EUR", 2⟩]
    ⟨5, "Sell", "A", 1, 1, "EUR"⟩ 0
    ([⟨"A", 2, 1, "EUR", 1⟩, ⟨"B", 2, 1, "EUR", 2⟩], ⟨0, 0, 0, 1⟩)
    (by norm_num [processSell, eligibleLots, sortUnitsAsc, List.insertionSort,
      List.orderedInsert, lotUnitsLE, weightedValue, sumUnits, tax_calculator_ACB,
      update_balance, update_balance_loop, calculate_units_to_remove_from_purchase_order,
      rebalance, sortDateAsc, lotDateLE, round2, round_eq, TAX_RATE, List.filter_cons,
      show ("B" : String) ≠ "A" from by decide])).1
    ⟨"B", 2, 1, "EUR", 2⟩ (Or.inl (by constructor <;> decide))

/-- Counterexample to C8 as stated.  Ledger: a lot of A dated 1 and a lot of
B dated exactly 5; selling 1 unit of A at date 5 succeeds, yet the B lot —
which belongs to an asset other than the sold one and which the claim says
stays — is dropped by the re-assembly (it is neither `Date < 5` among other
assets nor `Date > 5`). -/
theorem claim_C8_counterexample :
    processSell ⟨"ACB", "EUR"⟩ [⟨"A", 3, 1, "EUR", 1⟩, ⟨"B", 2, 1, "EUR", 5⟩]
        ⟨5, "Sell", "A", 1, 1, "EUR"⟩ 0
      = .ok ([⟨"A", 2, 1, "EUR", 1⟩], ⟨0, 0, 0, 1⟩) ∧
    (⟨"B", 2, 1, "EUR", 5⟩ : Lot) ∈
      ([⟨"A", 3, 1, "EUR", 1⟩, ⟨"B", 2, 1, "EUR", 5⟩] : List Lot) ∧
    (⟨"B", 2, 1, "EUR", 5⟩ : Lot) ∉ ([⟨"A", 2, 1, "EUR", 1⟩] : List Lot) ∧
    (⟨"B", 2, 1, "EUR", 5⟩ : Lot).asset ≠ "A" := by
  refine ⟨?_, by decide, by decide, by decide⟩
  norm_num [processSell, eligibleLots, sortUnitsAsc, List.insertionSort,
    List.orderedInsert, lotUnitsLE, weightedValue, sumUnits, tax_calculator_ACB,
    update_balance, update_balance_loop, calculate_units_to_remove_from_purchase_order,
    rebalance, sortDateAsc, lotDateLE, round2, round_eq, TAX_RATE, List.filter_cons,
    show ("B" : String) ≠ "A" from by decide]

/-! ## Claim C9 -/

/-- C9, confirmed.  Starting from a ledger whose lots all hold strictly
positive units, every lot remaining after a processing step — a successful
sell under any method, or a swap whose incoming transaction carries positive
units — again holds strictly positive units: both depletion paths filter
`Units > 0` before the slice re-enters the ledger, the other two re-assembled
regions are sub-lists of the old ledger, and the swap's inserted lot carries
the swap's own units. -/
theorem claim_C9_positive_units_invariant (cfg : Config) (df_balance : List Lot)
    (hpos : ∀ l ∈ df_balance, 0 < l.units) :
    (∀ (sell : Tx) (a0 : ℚ) (out : List Lot × SalesRecord),
      processSell cfg df_balance sell a0 = .ok out → ∀ l ∈ out.1, 0 < l.units) ∧
    (∀ asset_out asset_in : Tx, 0 < asset_in.units →
      ∀ l ∈ processSwap cfg df_balance asset_out asset_in, 0 < l.units) := by
  constructor
  · intro sell a0 out hok l hl
    obtain ⟨hbal, -, -⟩ := processSell_ok_structure hok
    rw [hbal] at hl
    rcases mem_rebalance.mp hl with h | h | h
    · exact (sellDepletion_out _ _ _ _ _ l h).1
    · exact hpos l (List.mem_filter.mp h).1
    · exact hpos l (List.mem_filter.mp h).1
  · intro asset_out asset_in hin l hl
    unfold processSwap at hl
    rcases mem_rebalance.mp hl with h | h | h
    · rcases List.mem_append.mp h with h' | h'
      · unfold update_balance at h'
        have := (List.mem_filter.mp h').2
        simpa using this
      · rw [List.mem_singleton] at h'
        rw [h']
        exact hin
    · exact hpos l (List.mem_filter.mp h).1
    · exact hpos l (List.mem_filter.mp h).1

/-- Witness for C9: a concrete FIFO sell and a concrete swap, both starting
from an all-positive ledger. -/
theorem claim_C9_witness :
    (∀ l ∈ ([⟨"A", 5, 1, "EUR", 1⟩, ⟨"A", 2, 2, "EUR", 3⟩] : List Lot).filter
        (fun l => (2 : ℤ) < l.date), 0 < l.units) ∧
    (∀ l ∈ processSwap ⟨"FIFO", "EUR"⟩ [⟨"A", 5, 1, "EUR", 1⟩, ⟨"A", 2, 2, "EUR", 3⟩]
        ⟨2, "Swap", "A", 3, 0, "EUR"⟩ ⟨2, "Swap", "B", 6, 0, "EUR"⟩, 0 < l.units) := by
  constructor
  · intro l hl
    have hp : ∀ x ∈ ([⟨"A", 5, 1, "EUR", 1⟩, ⟨"A", 2, 2, "EUR", 3⟩] : List Lot),
        0 < x.units := by
      intro x hx
      fin_cases hx <;> norm_num
    exact hp l (List.mem_filter.mp hl).1
  · exact (claim_C9_positive_units_invariant ⟨"FIFO", "EUR"⟩
      [⟨"A", 5, 1, "EUR", 1⟩, ⟨"A", 2, 2, "EUR", 3⟩]
      (by intro x hx; fin_cases hx <;> norm_num)).2
      ⟨2, "Swap", "A", 3, 0, "EUR"⟩ ⟨2, "Swap", "B", 6, 0, "EUR"⟩ (by norm_num)

/-! ## Claim C10 -/

/-- C10, confirmed.  The lot the Swap branch inserts for the incoming asset
carries the hard-coded Currency string "EUR" (line 394), whatever the
configured base currency is, while the normaliser stamps airdrop, staking and
mining acquisitions with the configured CURRENCY. -/
theorem claim_C10_swap_currency_hardcoded (cfg : Config) (df_balance : List Lot)
    (asset_out asset_in t : Tx) :
    (swap_new_lot df_balance asset_out asset_in).currency = "EUR" ∧
    swap_new_lot df_balance asset_out asset_in
      ∈ processSwap cfg df_balance asset_out asset_in ∧
    (normalizeTx cfg { t with txType := "Airdrop" }).currency = cfg.CURRENCY ∧
    (normalizeTx cfg { t with txType := "Staking" }).currency = cfg.CURRENCY ∧
    (normalizeTx cfg { t with txType := "Mining" }).currency = cfg.CURRENCY := by
  refine ⟨rfl, ?_, ?_, ?_, ?_⟩
  · unfold processSwap rebalance sortDateAsc
    rw [(List.perm_insertionSort lotDateLE _).mem_iff]
    simp
  · simp [normalizeTx]
  · simp [normalizeTx]
  · simp [normalizeTx]

end CapGains
